import Mathlib

/-!
Shallow embedding of the Fibonacci heap of `edalib`
(`src/blocks/manu343726/edalib/FibHeap.hpp`).

Nodes live in an arena (`mem : List (Nat × Node α)`) addressed by stable
ids; the C++ raw pointers `parent`, `child`, `left`, `right` become
`Option Nat` fields (`none` = `nullptr`).  Every operation that in C++
would invoke undefined behaviour fails in the `Except Err` monad with a
tag saying how: `Err.nullPtr` for dereferencing a null pointer,
`Err.dangling` for reading or writing through a pointer to a node that
is not (or no longer) in the arena, `Err.oob` for the out-of-bounds
`std::vector` access in `_consolidate`'s registry, and `Err.fuel` when
an explicit fuel bound on the pointer-chasing loops (`do_forwards`,
`do_foreach_while`) runs out, the image of a C++ loop that has not
terminated within that many steps.  `std::size_t` arithmetic on
`degree` and `_size` is modelled with explicit wrap-around at `2^64`.
-/

namespace EdaLib

set_option maxRecDepth 4000000

/-- How a run of the C++ code can go wrong. -/
inductive Err : Type where
  | nullPtr : Err
  | dangling : Err
  | oob : Err
  | oom : Err
  | fuel : Err
  deriving Repr, DecidableEq

/-- Computations that may crash. -/
abbrev M (β : Type) : Type := Except Err β

deriving instance DecidableEq for Except

/-- `impl::node<T>`: key plus parent/child/left/right pointers, degree
(`std::size_t`) and the `modified` mark. -/
structure Node (α : Type) where
  key : α
  parent : Option Nat
  child : Option Nat
  left : Option Nat
  right : Option Nat
  degree : Nat
  modified : Bool
  deriving Repr, DecidableEq

/-- The heap state: the arena of live nodes, a fresh-id counter for the
allocator, and the `_min` / `_size` members of `FibHeap`. -/
structure Heap (α : Type) where
  mem : List (Nat × Node α)
  next : Nat
  min : Option Nat
  size : Nat
  deriving Repr, DecidableEq

/-- The empty heap built by the `FibHeap` constructor. -/
def Heap.empty (α : Type) : Heap α := ⟨[], 0, none, 0⟩

/-- Dereference a possibly-null pointer. -/
def deref : Option Nat → M Nat
  | none => throw Err.nullPtr
  | some i => pure i

/-- Read the node behind id `i` (fails on a dangling id, i.e. a C++
use-after-free or wild pointer). -/
def getN (h : Heap α) (i : Nat) : M (Node α) :=
  match h.mem.find? (fun p => p.1 == i) with
  | none => throw Err.dangling
  | some p => pure p.2

/-- Write through id `i` (fails if `i` is not a live node). -/
def updN (h : Heap α) (i : Nat) (f : Node α → Node α) : M (Heap α) :=
  if (h.mem.find? (fun p => p.1 == i)).isSome then
    pure { h with mem := h.mem.map (fun p => if p.1 == i then (p.1, f p.2) else p) }
  else throw Err.dangling

/-- `2^64`, the modulus of `std::size_t` arithmetic. -/
def w64 : Nat := 2 ^ 64

/-- `std::size_t` increment (wraps at `2^64`). -/
def incW64 (d : Nat) : Nat := (d + 1) % w64

/-- `std::size_t` decrement (wraps below zero to `2^64 - 1`). -/
def decW64 (d : Nat) : Nat := (d + (w64 - 1)) % w64

/-- `FibHeap::empty`. -/
def Heap.isEmpty (h : Heap α) : Bool := h.min == none

/-- Fuelled `⌊log₂⌋` (structurally recursive so that the kernel can
evaluate it; the fuel `n` always suffices since `n / 2` halves). -/
def log2Aux : Nat → Nat → Nat
  | 0, _ => 0
  | fuel + 1, n => if n ≥ 2 then log2Aux fuel (n / 2) + 1 else 0

/-- `⌊log₂ n⌋`, used to model `(std::size_t)(2*std::log2(n))` as
`⌊log₂ (n·n)⌋`. -/
def lg2 (n : Nat) : Nat := log2Aux n n

/-- `FibHeap::min`: `return _min->key;` — no emptiness check in the
source, so an empty heap dereferences `nullptr`. -/
def findMin (h : Heap α) : M α := do
  let m ← deref h.min
  let nd ← getN h m
  return nd.key

/-- `FibHeap::_add_to_rootschain(root, n)`, line by line:
early-outs when `n` is `root` or already adjacent to it, then the
four-pointer splice of `n` to the left of `root`, the parent copy
`n->parent = root->parent`, and the `root->parent->degree++` when
`root` has a parent. -/
def addToRootschain (h : Heap α) (root n : Nat) : M (Heap α) :=
  if root == n then Except.ok h
  else
    (getN h root).bind fun rt =>
    if rt.left == some n || rt.right == some n then Except.ok h
    else
      (deref rt.left).bind fun l =>
      (updN h l (fun nd => { nd with right := some n })).bind fun h =>
      (getN h root).bind fun rt1 =>
      (updN h n (fun nd => { nd with left := rt1.left })).bind fun h =>
      (updN h n (fun nd => { nd with right := some root })).bind fun h =>
      (updN h root (fun nd => { nd with left := some n })).bind fun h =>
      (getN h root).bind fun rt2 =>
      (updN h n (fun nd => { nd with parent := rt2.parent })).bind fun h =>
      match rt2.parent with
      | none => Except.ok h
      | some p => updN h p (fun nd => { nd with degree := incW64 nd.degree })

/-- `FibHeap::_remove_from_rootschain(root)`: unlink `root` from its
sibling cycle, make it a singleton cycle, and `root->parent->degree--`
when it has a parent. -/
def removeFromRootschain (h : Heap α) (root : Nat) : M (Heap α) := do
  let rt ← getN h root
  let rght ← deref rt.right
  let left ← deref rt.left
  let h ← updN h left (fun nd => { nd with right := some rght })
  let h ← updN h rght (fun nd => { nd with left := some left })
  let h ← updN h root (fun nd => { nd with left := some root })
  let h ← updN h root (fun nd => { nd with right := some root })
  let rt2 ← getN h root
  match rt2.parent with
  | none => return h
  | some p => updN h p (fun nd => { nd with degree := decW64 nd.degree })

/-- `FibHeap::_add_child(parent, child)`: if `parent` has no child the
new child becomes a singleton child cycle (note: the source does not
touch `parent->degree` on this branch); otherwise the child is spliced
into the existing child cycle via `_add_to_rootschain`.  Finally
`child->parent = parent`. -/
def addChild (h : Heap α) (parent child : Nat) : M (Heap α) := do
  let p ← getN h parent
  match p.child with
  | none =>
    let h ← updN h parent (fun nd => { nd with child := some child })
    let h ← updN h child (fun nd => { nd with left := some child })
    let h ← updN h child (fun nd => { nd with right := some child })
    updN h child (fun nd => { nd with parent := some parent })
  | some pc =>
    let h ← addToRootschain h pc child
    updN h child (fun nd => { nd with parent := some parent })

/-- `FibHeap::_link(x, y)`: no-op when `x == y`, otherwise remove `y`
from the root chain, attach it as a child of `x`, clear `y->modified`. -/
def link (h : Heap α) (x y : Nat) : M (Heap α) := do
  if x == y then return h
  let h ← removeFromRootschain h y
  let h ← addChild h x y
  updN h y (fun nd => { nd with modified := false })

/-- The node built by `node_factory::create` plus the field
initialisation at the top of `_insert`: key set, no parent, no child,
null siblings, degree 0, unmarked. -/
def insNode (v : α) : Node α :=
  { key := v, parent := none, child := none, left := none, right := none,
    degree := 0, modified := false }

/-- Allocate the fresh node into the arena (the `_factory.create`
call). -/
def extendH (h : Heap α) (v : α) : Heap α :=
  { h with mem := h.mem ++ [(h.next, insNode v)], next := h.next + 1 }

/-- `FibHeap::_insert(node)`: initialise the freshly allocated node,
splice it into the root chain (or make it the sole root), update `_min`
by `_compare`, and `_size++`. -/
def insert (cmp : α → α → Bool) (h : Heap α) (v : α) : M (Heap α) :=
  match h.min with
  | none =>
    (updN (extendH h v) h.next (fun n => { n with right := some h.next })).bind fun h2 =>
    (updN h2 h.next (fun n => { n with left := some h.next })).bind fun h2 =>
    Except.ok { h2 with min := some h.next, size := incW64 h2.size }
  | some m =>
    (addToRootschain (extendH h v) m h.next).bind fun h2 =>
    (getN h2 m).bind fun mnd =>
    if cmp v mnd.key then
      Except.ok { h2 with min := some h.next, size := incW64 h2.size }
    else
      Except.ok { h2 with min := some m, size := incW64 h2.size }

/-- Loop body of `FibHeap::do_forwards`: saves `n->right` before the
callback, runs it, then steps to the saved sibling until back at
`start`.  Running out of fuel, or stepping onto a null `right` (which
the C++ loop would dereference next), fails. -/
def doForwardsAux (get : σ → Nat → M (Node α)) (f : σ → Nat → M σ) :
    Nat → σ → Nat → Nat → M σ
  | 0, _, _, _ => throw Err.fuel
  | fuel + 1, s, start, cur => do
    let nd ← get s cur
    let nxt := nd.right
    let s ← f s cur
    let nx ← deref nxt
    if nx == start then return s else doForwardsAux get f fuel s start nx

/-- `FibHeap::do_forwards(n, f)`: null entry point is a no-op. -/
def doForwards (get : σ → Nat → M (Node α)) (f : σ → Nat → M σ)
    (fuel : Nat) (s : σ) (n : Option Nat) : M σ :=
  match n with
  | none => pure s
  | some st => doForwardsAux get f fuel s st st

/-- Loop body of `FibHeap::do_foreach_while`: saves `node->child` and
`node->right`, breaks when the condition fails, otherwise runs the
callback, recurses into the saved child cycle, then steps to the saved
right sibling until back at `start`. -/
def doForeachWhileAux (get : σ → Nat → M (Node α))
    (cond : σ → Nat → Bool) (f : σ → Nat → M σ) :
    Nat → σ → Nat → Nat → M σ
  | 0, _, _, _ => throw Err.fuel
  | fuel + 1, s, start, cur => do
    let nd ← get s cur
    let child := nd.child
    let rght := nd.right
    if !cond s cur then return s
    else
      let s ← f s cur
      let s ← match child with
              | none => pure s
              | some c => doForeachWhileAux get cond f fuel s c c
      let r ← deref rght
      if r == start then return s else doForeachWhileAux get cond f fuel s start r

/-- `FibHeap::do_foreach_while(start, f, condition)`: null start is a
no-op. -/
def doForeachWhile (get : σ → Nat → M (Node α))
    (cond : σ → Nat → Bool) (f : σ → Nat → M σ)
    (fuel : Nat) (s : σ) (start : Option Nat) : M σ :=
  match start with
  | none => pure s
  | some st => doForeachWhileAux get cond f fuel s st st

/-- `FibHeap::do_foreach(start, f)` = `do_foreach_while` with an
always-true condition. -/
def doForeach (get : σ → Nat → M (Node α)) (f : σ → Nat → M σ)
    (fuel : Nat) (s : σ) (start : Option Nat) : M σ :=
  doForeachWhile get (fun _ _ => true) f fuel s start

/-- `setup_registry` in `FibHeap::_consolidate`: grow the vector `a`
with null entries while `a.size() < degree + 1`.  `degree + 1` is
`std::size_t` arithmetic, so at `degree = 2^64 - 1` it wraps to `0` and
no growth happens.  A demanded size above `2^32` slots (32 GiB of node
pointers — degrees that large only arise from `std::size_t` underflow)
exhausts memory: `std::vector::push_back` throws `std::bad_alloc`,
which nothing catches (`Err.oom`). -/
def setupRegistry (a : List (Option Nat)) (degree : Nat) :
    M (List (Option Nat)) :=
  let need := incW64 degree
  if need > 2 ^ 32 then throw Err.oom
  else if a.length < need then pure (a ++ List.replicate (need - a.length) none)
  else pure a

/-- `registry(degree)` as an rvalue: grow, then read `a[degree]`.  When
the wrapped growth left the vector shorter than `degree + 1` the read
is out of bounds — undefined behaviour (the debug build dies on
`assert(a.size() > degree)`). -/
def regGet (a : List (Option Nat)) (degree : Nat) :
    M (List (Option Nat) × Option Nat) := do
  let a ← setupRegistry a degree
  match a.get? degree with
  | none => throw Err.oob
  | some slot => pure (a, slot)

/-- `registry(degree) = v`: grow, then write `a[degree]`; out-of-bounds
writes are likewise undefined behaviour. -/
def regSet (a : List (Option Nat)) (degree : Nat) (v : Option Nat) :
    M (List (Option Nat)) := do
  let a ← setupRegistry a degree
  if degree < a.length then pure (a.set degree v) else throw Err.oob

/-- The `while(registry(degree) != nullptr)` loop inside the
`_consolidate` walk: pop the occupant `y`, swap so the smaller key is
the parent, `_link`, clear the slot, `degree++`.  Returns the final
heap, registry, survivor `x` and slot index `degree`.  Each iteration
clears one occupied slot, so `#occupied + 1` iterations always
suffice; the fuel passed by `consolidateVisit` covers that. -/
def consolidateWhile (cmp : α → α → Bool) :
    Nat → Heap α → List (Option Nat) → Nat → Nat →
    M (Heap α × List (Option Nat) × Nat × Nat)
  | 0, _, _, _, _ => throw Err.fuel
  | fuel + 1, h, a, x, degree => do
    match (← regGet a degree) with
    | (a, none) => pure (h, a, x, degree)
    | (a, some y) => do
      let ynd ← getN h y
      let xnd ← getN h x
      let (x, y) := if cmp ynd.key xnd.key then (y, x) else (x, y)
      let h ← link h x y
      let a ← regSet a degree none
      consolidateWhile cmp fuel h a x (incW64 degree)

/-- The per-node callback of the `_consolidate` walk: run the merge
loop starting from the visited node and its stored `degree`, then park
the survivor in the registry. -/
def consolidateVisit (cmp : α → α → Bool) (st : Heap α × List (Option Nat))
    (rootId : Nat) : M (Heap α × List (Option Nat)) := do
  let (h, a) := st
  let nd ← getN h rootId
  let r ← consolidateWhile cmp (a.length + h.mem.length + 2) h a rootId nd.degree
  let (h, a, x, degree) := r
  let a ← regSet a degree (some x)
  return (h, a)

/-- Rebuild phase of `_consolidate`: `_min = nullptr`, then for each
non-null registry slot in index order, seed `_min` or splice into the
root chain and keep the smaller key as `_min`. -/
def consolidateRebuild (cmp : α → α → Bool) (h : Heap α)
    (a : List (Option Nat)) : M (Heap α) :=
  a.foldlM
    (fun h slot =>
      match slot with
      | none => pure h
      | some n =>
        match h.min with
        | none => pure { h with min := some n }
        | some m => do
          let h ← addToRootschain h m n
          let nnd ← getN h n
          let mnd ← getN h m
          if cmp nnd.key mnd.key then return { h with min := some n }
          else return h)
    { h with min := none }

/-- `FibHeap::_consolidate()`: registry seeded with
`(std::size_t)(2*std::log2(size()))` null slots (`⌊2·log₂ n⌋ =
⌊log₂ n²⌋`), the `do_foreach` merge walk from `_min`, then the rebuild
loop over the registry. -/
def consolidate (cmp : α → α → Bool) (fuel : Nat) (h : Heap α) : M (Heap α) := do
  let a : List (Option Nat) := List.replicate (lg2 (h.size * h.size)) none
  let st ← doForeach (fun (s : Heap α × List (Option Nat)) i => getN s.1 i)
    (consolidateVisit cmp) fuel (h, a) h.min
  consolidateRebuild cmp st.1 st.2

/-- `FibHeap::_set_min(min)`: destroy the node currently at `_min`
(removing it from the arena), then repoint `_min`. -/
def setMin (h : Heap α) (m : Option Nat) : Heap α :=
  let mem := match h.min with
             | none => h.mem
             | some i => h.mem.filter (fun p => p.1 != i)
  { h with mem := mem, min := m }

/-- `FibHeap::_extract_min()`: splice `z = _min`'s child cycle into the
root chain, unlink `z`, then either clear `_min` (sole root) or repoint
it at `z->right` and consolidate; finally `_size--`. -/
def extractMinInternal (cmp : α → α → Bool) (fuel : Nat) (h : Heap α) :
    M (Heap α) := do
  let z ← deref h.min
  let znd ← getN h z
  let h ← match znd.child with
          | none => pure h
          | some c =>
            doForwards (fun (s : Heap α) i => getN s i)
              (fun s sib => do
                let m ← deref s.min
                addToRootschain s m sib)
              fuel h (some c)
  let znd2 ← getN h z
  let rght := znd2.right
  let h ← removeFromRootschain h z
  let h ← if rght == some z then
            pure (setMin h none)
          else do
            let h := setMin h rght
            consolidate cmp fuel h
  return { h with size := decW64 h.size }

/-- `FibHeap::extract_min()`: read `_min->key` (null dereference on an
empty heap), run `_extract_min`, return the key. -/
def extractMin (cmp : α → α → Bool) (fuel : Nat) (h : Heap α) :
    M (α × Heap α) := do
  let m ← deref h.min
  let mnd ← getN h m
  let h ← extractMinInternal cmp fuel h
  return (mnd.key, h)

/-- `FibHeap::contains(args...)`: build `e`, walk the whole heap with
`do_foreach_while`, the callback overwriting `exists = (n->key == e)`
and the condition stopping once `exists` holds. -/
def containsRun (beq : α → α → Bool) (fuel : Nat) (h : Heap α) (e : α) :
    M (Heap α × Bool) :=
  doForeachWhile (fun (s : Heap α × Bool) i => getN s.1 i)
    (fun s _ => !s.2)
    (fun s i => do
      let nd ← getN s.1 i
      return (s.1, beq nd.key e))
    fuel (h, false) h.min

/-- `FibHeap::_count_siblings(n)`: walk the sibling cycle with
`do_forwards`, counting. -/
def countSiblings (fuel : Nat) (h : Heap α) (n : Option Nat) : M Nat := do
  let st ← doForwards (fun (s : Heap α × Nat) i => getN s.1 i)
    (fun s _ => pure (s.1, s.2 + 1)) fuel (h, 0) n
  return st.2

/-- `FibHeap::_count_childs(node)` = `_count_siblings(node->child)`. -/
def countChilds (fuel : Nat) (h : Heap α) (i : Nat) : M Nat := do
  let nd ← getN h i
  countSiblings fuel h nd.child

/-- The asserts of `FibHeap::_check_integrity_node_degree`: the degree
is zero exactly when there is no child, and equals the child count. -/
def checkNodeDegree (fuel : Nat) (h : Heap α) (i : Nat) : M Bool := do
  let nd ← getN h i
  let cnt ← countChilds fuel h i
  return (((nd.degree == 0 && nd.child == none) ||
           (nd.degree != 0 && nd.child != none)) &&
          nd.degree == cnt)

/-- Ids visited by `do_foreach(_min, …)`, in visit order — the traversal
`_check_integrity_size`, `foreach` and the destructor all use. -/
def reachIds (fuel : Nat) (h : Heap α) : M (List Nat) := do
  let st ← doForeach (fun (s : Heap α × List Nat) i => getN s.1 i)
    (fun s i => pure (s.1, s.2 ++ [i])) fuel (h, ([] : List Nat)) h.min
  return st.2

/-- The asserts of `FibHeap::_check_integrity_size`: the `do_foreach`
count equals `_size`, and `_size == 0` iff `_min == nullptr`. -/
def checkSize (fuel : Nat) (h : Heap α) : M Bool := do
  let ids ← reachIds fuel h
  return (ids.length == h.size && ((h.size == 0) == (h.min == none)))

/-- The assert of `FibHeap::_check_integrity_min`: every node visited
by `do_foreach(_min, …)` satisfies
`_compare(_min->key, n->key) || _min->key == n->key`. -/
def checkMin (cmp beq : α → α → Bool) (fuel : Nat) (h : Heap α) : M Bool := do
  match h.min with
  | none => return true
  | some m => do
    let mnd ← getN h m
    let ids ← reachIds fuel h
    ids.foldlM (fun acc i => do
      let nd ← getN h i
      return (acc && (cmp mnd.key nd.key || beq mnd.key nd.key))) true

/-- Spec heap-order invariant over the arena: every live node with a
parent has `compare(p.key, n.key) ∨ p.key == n.key`. -/
def heapOrdered (cmp beq : α → α → Bool) (h : Heap α) : M Bool :=
  h.mem.foldlM (fun acc p => do
    match p.2.parent with
    | none => pure acc
    | some pid => do
      let pnd ← getN h pid
      return (acc && (cmp pnd.key p.2.key || beq pnd.key p.2.key))) true

/-- The root chain as seen from `_min`: ids reached by following
`right` pointers from `_min` until the cycle closes (`do_forwards`
order). -/
def rootChain (fuel : Nat) (h : Heap α) : M (List Nat) :=
  match h.min with
  | none => pure []
  | some m => do
    let st ← doForwards (fun (s : Heap α × List Nat) i => getN s.1 i)
      (fun s i => pure (s.1, s.2 ++ [i])) fuel (h, ([] : List Nat)) (some m)
    return st.2

/-- Generous fuel: quadratic in the arena size, enough for any
traversal of an uncorrupted heap. -/
def bigFuel (h : Heap α) : Nat := (h.mem.length + 2) * (h.mem.length + 2)

/-- Insert a list of values left to right. -/
def insertList (cmp : α → α → Bool) (h : Heap α) (vs : List α) : M (Heap α) :=
  vs.foldlM (fun h v => insert cmp h v) h

/-- Build a heap from a list of values. -/
def heapOf (cmp : α → α → Bool) (vs : List α) : M (Heap α) :=
  insertList cmp (Heap.empty α) vs

/-- Extract `k` times, collecting the returned keys. -/
def extractK (cmp : α → α → Bool) : Nat → Heap α → M (List α × Heap α)
  | 0, h => pure ([], h)
  | k + 1, h => do
    let (v, h) ← extractMin cmp (bigFuel h) h
    let (vs, h) ← extractK cmp k h
    return (v :: vs, h)

/-- The `Compare = std::less<int>` instantiation used by the repository
test (`testFibHeap<int, …>` with `a < b`). -/
def intLt : Int → Int → Bool := fun a b => a < b

/-- `operator==` on `int`, used by `contains` and `_check_integrity_min`. -/
def intEq : Int → Int → Bool := fun a b => a == b

/-- Instrumented twin of `consolidate`: identical computation, but the
walk callback also logs which node id each `do_foreach` visit hands to
the merge body.  Used to examine which nodes the merging pass actually
processes. -/
def consolidateT (cmp : α → α → Bool) (fuel : Nat) (h : Heap α) :
    M (Heap α × List Nat) := do
  let a : List (Option Nat) := List.replicate (lg2 (h.size * h.size)) none
  let st ← doForeach
    (fun (s : (Heap α × List (Option Nat)) × List Nat) i => getN s.1.1 i)
    (fun s i => do
      let r ← consolidateVisit cmp s.1 i
      return (r, s.2 ++ [i]))
    fuel ((h, a), ([] : List Nat)) h.min
  let h2 ← consolidateRebuild cmp st.1.1 st.1.2
  return (h2, st.2)

/-- Instrumented twin of `extractMinInternal`: identical computation,
but returns, besides the final heap, the heap state at the moment
`_consolidate` starts and the list of node ids its walk processes
(both trivial when no consolidation runs). -/
def extractMinInternalT (cmp : α → α → Bool) (fuel : Nat) (h : Heap α) :
    M (Heap α × Heap α × List Nat) := do
  let z ← deref h.min
  let znd ← getN h z
  let h ← match znd.child with
          | none => pure h
          | some c =>
            doForwards (fun (s : Heap α) i => getN s i)
              (fun s sib => do
                let m ← deref s.min
                addToRootschain s m sib)
              fuel h (some c)
  let znd2 ← getN h z
  let rght := znd2.right
  let h ← removeFromRootschain h z
  if rght == some z then
    let h := setMin h none
    return ({ h with size := decW64 h.size }, h, [])
  else
    let h := setMin h rght
    let (h2, vis) ← consolidateT cmp fuel h
    return ({ h2 with size := decW64 h2.size }, h, vis)

/-- The heap left by `insert 3; insert 1; insert 2; insert 4;
extract_min()` — already corrupted after this single extraction: node 0
carries degree `2^64 - 2` from two `std::size_t` underflows, node 2
(`_min`) is its own parent, and node 2's sibling cycle `2 → 3 → 0 → 2`
is not closed under the child pointers, making the recursive
`do_foreach` traversal non-terminating. -/
def H3 : Heap Int :=
  { mem :=
      [(0, { key := 3, parent := some 2, child := some 3, left := some 3,
             right := some 2, degree := w64 - 2, modified := false }),
       (2, { key := 2, parent := some 2, child := some 0, left := some 0,
             right := some 3, degree := 1, modified := false }),
       (3, { key := 4, parent := some 2, child := none, left := some 2,
             right := some 0, degree := 0, modified := false })],
    next := 4, min := some 2, size := 3 }

/-- The `get` callback `doForeach` uses inside `reachIds`. -/
def rGet : (Heap Int × List Nat) → Nat → M (Node Int) := fun s i => getN s.1 i

/-- The always-true condition of `do_foreach`. -/
def rCond : (Heap Int × List Nat) → Nat → Bool := fun _ _ => true

/-- The id-collecting callback of `reachIds`. -/
def rF : (Heap Int × List Nat) → Nat → M (Heap Int × List Nat) :=
  fun s i => pure (s.1, s.2 ++ [i])

/-- The `get` callback of `containsRun`. -/
def cGet : (Heap Int × Bool) → Nat → M (Node Int) := fun s i => getN s.1 i

/-- The `!exists` condition of `contains`. -/
def cCond : (Heap Int × Bool) → Nat → Bool := fun s _ => !s.2

/-- The `exists = (n->key == e)` callback of `contains`. -/
def cF (e : Int) : (Heap Int × Bool) → Nat → M (Heap Int × Bool) := fun s i => do
  let nd ← getN s.1 i
  return (s.1, intEq nd.key e)

/-- The key stored behind id `j`. -/
def getKey (h : Heap α) (j : Nat) : M α := (getN h j).map (fun nd => nd.key)

/-- Heap fields and stored keys untouched by root-chain surgery. -/
def HFrame (a b : Heap α) : Prop :=
  b.min = a.min ∧ b.size = a.size ∧ b.next = a.next ∧ ∀ j, getKey b j = getKey a j

/-! ### Helper lemmas -/

theorem bindErr {β γ : Type} {e : Err} {x : M β} (k : β → M γ)
    (hx : x = Except.error e) : x.bind k = Except.error e := by
  rw [hx]; rfl

theorem bind_ok {β γ : Type} {x : M β} {k : β → M γ} {c : γ}
    (hb : x.bind k = Except.ok c) : ∃ b, x = Except.ok b ∧ k b = Except.ok c := by
  cases x with
  | error e => exact absurd hb (by simp [Except.bind])
  | ok b => exact ⟨b, rfl, hb⟩

theorem find?_consE {β : Type} (p : β → Bool) (a : β) (l : List β) :
    (a :: l).find? p = match p a with | true => some a | false => l.find? p := rfl

theorem findArena_map {α : Type} (l : List (Nat × Node α)) (i j : Nat) (f : Node α → Node α) :
    (l.map (fun p => if p.1 == i then (p.1, f p.2) else p)).find? (fun p => p.1 == j)
    = if j = i then (l.find? (fun p => p.1 == j)).map (fun p => (p.1, f p.2))
      else l.find? (fun p => p.1 == j) := by
  induction l with
  | nil => by_cases hji : j = i <;> simp [hji]
  | cons a t ih =>
    rw [List.map_cons]
    by_cases hai : (a.1 == i) = true
    · rw [if_pos hai]
      by_cases haj : (a.1 == j) = true
      · have h1 : a.1 = i := by simpa using hai
        have h2 : a.1 = j := by simpa using haj
        have hji : j = i := by omega
        rw [if_pos hji, find?_consE, find?_consE]
        rw [show ((a.1, f a.2).1 == j) = true from haj]
        rfl
      · have haj2 : (a.1 == j) = false := by simpa using haj
        rw [find?_consE, find?_consE]
        rw [show ((a.1, f a.2).1 == j) = false from haj2]
        exact ih
    · rw [if_neg hai]
      by_cases haj : (a.1 == j) = true
      · have hji : ¬ j = i := by
          intro he
          have h2 : a.1 = j := by simpa using haj
          exact hai (by simp [h2, he])
        rw [if_neg hji, find?_consE, find?_consE]
        rw [show (a.1 == j) = true from haj]
      · have haj2 : (a.1 == j) = false := by simpa using haj
        rw [find?_consE, find?_consE]
        rw [show (a.1 == j) = false from haj2]
        exact ih

theorem updN_getN_ne {α : Type} {h : Heap α} {i : Nat} {f : Node α → Node α} {h2 : Heap α}
    (hu : updN h i f = Except.ok h2) {j : Nat} (hji : j ≠ i) :
    getN h2 j = getN h j := by
  unfold updN at hu
  split at hu
  · cases hu
    unfold getN
    rw [findArena_map h.mem i j f, if_neg hji]
  · exact absurd hu (by simp)

theorem updN_getN_eq {α : Type} {h : Heap α} {i : Nat} {f : Node α → Node α} {h2 : Heap α}
    (hu : updN h i f = Except.ok h2) :
    getN h2 i = (getN h i).map f := by
  unfold updN at hu
  split at hu
  · cases hu
    unfold getN
    rw [findArena_map h.mem i i f, if_pos rfl]
    cases hfind : h.mem.find? (fun p => p.1 == i) with
    | none => rfl
    | some p => rfl
  · exact absurd hu (by simp)

theorem updN_frame {α : Type} {h : Heap α} {i : Nat} {f : Node α → Node α} {h2 : Heap α}
    (hu : updN h i f = Except.ok h2) :
    h2.min = h.min ∧ h2.size = h.size ∧ h2.next = h.next := by
  unfold updN at hu
  split at hu
  · cases hu; exact ⟨rfl, rfl, rfl⟩
  · exact absurd hu (by simp)

theorem updN_getKey {α : Type} {h : Heap α} {i : Nat} {f : Node α → Node α} {h2 : Heap α}
    (hu : updN h i f = Except.ok h2) (hf : ∀ nd, (f nd).key = nd.key) (j : Nat) :
    getKey h2 j = getKey h j := by
  unfold getKey
  by_cases hji : j = i
  · subst hji
    rw [updN_getN_eq hu]
    cases getN h j with
    | error e => rfl
    | ok nd => simp [Except.map, hf]
  · rw [updN_getN_ne hu hji]

theorem HFrame.refl {α : Type} (a : Heap α) : HFrame a a := ⟨rfl, rfl, rfl, fun _ => rfl⟩

theorem HFrame.trans {α : Type} {a b c : Heap α} (h1 : HFrame a b) (h2 : HFrame b c) :
    HFrame a c :=
  ⟨h2.1.trans h1.1, h2.2.1.trans h1.2.1, h2.2.2.1.trans h1.2.2.1,
   fun j => (h2.2.2.2 j).trans (h1.2.2.2 j)⟩

theorem updN_hframe {α : Type} {h : Heap α} {i : Nat} {f : Node α → Node α} {h2 : Heap α}
    (hu : updN h i f = Except.ok h2) (hf : ∀ nd, (f nd).key = nd.key) :
    HFrame h h2 :=
  ⟨(updN_frame hu).1, (updN_frame hu).2.1, (updN_frame hu).2.2, updN_getKey hu hf⟩

/-- `_add_to_rootschain` never touches `_min`, `_size`, the allocator
counter, or any stored key. -/
theorem addToRootschain_hframe {α : Type} {h : Heap α} {r n : Nat} {h2 : Heap α}
    (hrun : addToRootschain h r n = Except.ok h2) : HFrame h h2 := by
  unfold addToRootschain at hrun
  by_cases hrn : (r == n) = true
  · rw [if_pos hrn] at hrun
    cases hrun
    exact HFrame.refl h
  · rw [if_neg hrn] at hrun
    obtain ⟨rt, e1, hrun⟩ := bind_ok hrun
    by_cases hadj : (rt.left == some n || rt.right == some n) = true
    · rw [if_pos hadj] at hrun
      cases hrun
      exact HFrame.refl h
    · rw [if_neg hadj] at hrun
      obtain ⟨l, e2, hrun⟩ := bind_ok hrun
      obtain ⟨hA, eA, hrun⟩ := bind_ok hrun
      obtain ⟨rt1, eB, hrun⟩ := bind_ok hrun
      obtain ⟨hB, eC, hrun⟩ := bind_ok hrun
      obtain ⟨hC, eD, hrun⟩ := bind_ok hrun
      obtain ⟨hD, eE, hrun⟩ := bind_ok hrun
      obtain ⟨rt2, eF, hrun⟩ := bind_ok hrun
      obtain ⟨hE, eG, hrun⟩ := bind_ok hrun
      have f1 := updN_hframe eA (fun nd => rfl)
      have f2 := updN_hframe eC (fun nd => rfl)
      have f3 := updN_hframe eD (fun nd => rfl)
      have f4 := updN_hframe eE (fun nd => rfl)
      have f5 := updN_hframe eG (fun nd => rfl)
      have fAll := (((f1.trans f2).trans f3).trans f4).trans f5
      cases hpar : rt2.parent with
      | none =>
        rw [hpar] at hrun
        cases hrun
        exact fAll
      | some p =>
        rw [hpar] at hrun
        exact fAll.trans (updN_hframe hrun (fun nd => rfl))

theorem findArena_append {α : Type} (l : List (Nat × Node α)) (i j : Nat) (nd : Node α)
    (hfresh : l.find? (fun p => p.1 == i) = none) :
    (l ++ [(i, nd)]).find? (fun p => p.1 == j)
    = if j = i then some (i, nd) else l.find? (fun p => p.1 == j) := by
  induction l with
  | nil =>
    by_cases hji : j = i
    · rw [List.nil_append, find?_consE, show ((i, nd).1 == j) = true from by simp [hji],
        if_pos hji]
    · have hij : ¬ i = j := fun he => hji he.symm
      rw [List.nil_append, find?_consE,
        show ((i, nd).1 == j) = false from by simp [hij], if_neg hji]
  | cons a t ih =>
    rw [find?_consE] at hfresh
    cases hai : (a.1 == i) with
    | true => rw [hai] at hfresh; exact absurd hfresh (by simp)
    | false =>
      rw [hai] at hfresh
      rw [List.cons_append, find?_consE, find?_consE]
      cases haj : (a.1 == j) with
      | true =>
        have hji : ¬ j = i := by
          intro he
          have : a.1 = j := by simpa using haj
          rw [he] at this
          exact absurd hai (by simp [this])
        rw [if_neg hji]
      | false => exact ih hfresh

/-- Reading through the arena extended with a fresh node. -/
theorem getN_extend {α : Type} {h : Heap α} {v : α}
    (hfresh : h.mem.find? (fun p => p.1 == h.next) = none) (j : Nat) :
    getN (extendH h v) j
    = if j = h.next then Except.ok (insNode v) else getN h j := by
  unfold getN extendH
  rw [show ({ h with mem := h.mem ++ [(h.next, insNode v)], next := h.next + 1 } : Heap α).mem
      = h.mem ++ [(h.next, insNode v)] from rfl]
  rw [findArena_append h.mem h.next j (insNode v) hfresh]
  by_cases hji : j = h.next
  · rw [if_pos hji, if_pos hji]
    rfl
  · rw [if_neg hji, if_neg hji]

/-! ### Non-termination of the `do_foreach` traversal on the corrupted
heap `H3`: the walk falls into the lasso `(start 3, cur 3) →
(start 3, cur 0) → child recursion back to (start 3, cur 3)`, so it
exhausts any fuel — the C++ loop runs forever. -/

theorem reachLasso (fuel : Nat) : ∀ acc : List Nat,
    (doForeachWhileAux rGet rCond rF fuel (H3, acc) 3 3 = Except.error Err.fuel) ∧
    (doForeachWhileAux rGet rCond rF fuel (H3, acc) 3 0 = Except.error Err.fuel) := by
  induction fuel with
  | zero => intro acc; exact ⟨rfl, rfl⟩
  | succ f ih =>
    intro acc
    refine ⟨?_, ?_⟩
    · exact (ih (acc ++ [3])).2
    · exact bindErr _ ((ih (acc ++ [0])).1)

theorem reachEntry0 (fuel : Nat) : ∀ acc : List Nat,
    doForeachWhileAux rGet rCond rF fuel (H3, acc) 0 0 = Except.error Err.fuel := by
  cases fuel with
  | zero => intro acc; rfl
  | succ f => intro acc; exact bindErr _ ((reachLasso f (acc ++ [0])).1)

theorem reachEntry2 (fuel : Nat) : ∀ acc : List Nat,
    doForeachWhileAux rGet rCond rF fuel (H3, acc) 2 2 = Except.error Err.fuel := by
  cases fuel with
  | zero => intro acc; rfl
  | succ f => intro acc; exact bindErr _ (reachEntry0 f (acc ++ [2]))

/-- On `H3` the traversal `_check_integrity_size` and `foreach` rely on
never terminates, whatever the fuel. -/
theorem reachIdsH3 (fuel : Nat) : reachIds fuel H3 = Except.error Err.fuel :=
  bindErr _ (reachEntry2 fuel [])

theorem containsLasso (fuel : Nat) :
    (doForeachWhileAux cGet cCond (cF 5) fuel (H3, false) 3 3 = Except.error Err.fuel) ∧
    (doForeachWhileAux cGet cCond (cF 5) fuel (H3, false) 3 0 = Except.error Err.fuel) := by
  induction fuel with
  | zero => exact ⟨rfl, rfl⟩
  | succ f ih => exact ⟨ih.2, bindErr _ ih.1⟩

theorem containsEntry0 (fuel : Nat) :
    doForeachWhileAux cGet cCond (cF 5) fuel (H3, false) 0 0 = Except.error Err.fuel := by
  cases fuel with
  | zero => rfl
  | succ f => exact bindErr _ (containsLasso f).1

theorem containsEntry2 (fuel : Nat) :
    doForeachWhileAux cGet cCond (cF 5) fuel (H3, false) 2 2 = Except.error Err.fuel := by
  cases fuel with
  | zero => rfl
  | succ f => exact bindErr _ (containsEntry0 f)

/-- On `H3`, `contains` for the absent key `5` never terminates,
whatever the fuel. -/
theorem containsRunH3 (fuel : Nat) : containsRun intEq fuel H3 5 = Except.error Err.fuel :=
  containsEntry2 fuel

/-! ### Claim theorems -/

/-- C1: the spec claims that inserting `5,3,8,1,9,2` and calling
extract-min repeatedly yields `1,2,3,5,8,9` (and duality for every
sequence).  In fact only the first two extractions return `1` then `2`;
the third extraction's consolidation reads a `degree` field that has
underflowed to `2^64 - 1` and performs an out-of-bounds read of the
degree registry (`assert(a.size() > degree)` in a debug build,
undefined behaviour in release), so the full extraction sequence
crashes instead of returning the sorted keys. -/
theorem C1_extract_insert_duality_violated :
    ((heapOf intLt [5, 3, 8, 1, 9, 2]).bind (fun h => extractK intLt 6 h))
      = Except.error Err.oob ∧
    ((heapOf intLt [5, 3, 8, 1, 9, 2]).bind (fun h => extractK intLt 2 h)).map
        (fun p => p.1) = Except.ok [1, 2] ∧
    ((heapOf intLt [5, 4, 3, 2, 1, 0]).bind (fun h => extractK intLt 6 h))
      = Except.error Err.oob := by
  refine ⟨by decide, by decide, by decide⟩

/-- C2 counterexample: `min()` on an empty heap does not fail with an
EmptyHeap condition — it dereferences the null `_min` pointer
(`return _min->key;` with no check), exactly what the claim says must
not happen. -/
theorem C2_empty_heap_counterexample :
    findMin (Heap.empty Int) = Except.error Err.nullPtr := by decide

/-- C2 amended: on an empty heap (fresh or fully drained) `find-min`
and `extract-min` both fail before any structural mutation, but by
dereferencing the null `_min` (in a debug build `extract_min` dies on
`assert(_min != nullptr)` first); no EmptyHeap error condition exists
in the code. -/
theorem C2_empty_heap_amended :
    findMin (Heap.empty Int) = Except.error Err.nullPtr ∧
    extractMin intLt 10 (Heap.empty Int) = Except.error Err.nullPtr ∧
    ((heapOf intLt [7]).bind (fun h => extractMinInternal intLt 10 h)).bind
      (fun h => findMin h) = Except.error Err.nullPtr ∧
    ((heapOf intLt [7]).bind (fun h => extractMinInternal intLt 10 h)).bind
      (fun h => extractMin intLt 10 h) = Except.error Err.nullPtr := by
  refine ⟨by decide, by decide, by decide, by decide⟩

/-- C3: after `insert 1; insert 2; insert 3; extract_min()`, the
consolidation links the two remaining roots, but `_add_child`'s
empty-child branch never increments the new parent's degree: node 1
(key 2) ends with one child (node 2, key 3) and `degree == 0`, so the
code's own `_check_integrity_node_degree` assert is false. -/
theorem C3_degree_invariant_violated :
    ((heapOf intLt [1, 2, 3]).bind (fun h => extractMinInternal intLt 20 h)).bind
      (fun h => checkNodeDegree 20 h 1) = Except.ok false ∧
    ((heapOf intLt [1, 2, 3]).bind (fun h => extractMinInternal intLt 20 h)).bind
      (fun h => (getN h 1).map (fun n => (n.degree, n.child))) = Except.ok (0, some 2) ∧
    ((heapOf intLt [1, 2, 3]).bind (fun h => extractMinInternal intLt 20 h)).bind
      (fun h => countChilds 20 h 1) = Except.ok 1 := by
  refine ⟨by decide, by decide, by decide⟩

/-- C4: in the second extraction from `insert 1..5`, consolidation
starts with exactly two roots (nodes 2 and 3, both parentless at the
start state recorded by the instrumented twin), yet the merge pass
processes `[2, 3, 4]` — node 4 was a child of node 3 at the start of
consolidation, because the walk uses `do_foreach`, which recurses into
child lists.  The instrumented twin agrees with the real
`_extract_min` on this input. -/
theorem C4_consolidate_walk_processes_children :
    ((heapOf intLt [1, 2, 3, 4, 5]).bind (fun h => extractMinInternal intLt 20 h)).bind
      (fun h => (extractMinInternalT intLt 20 h).map (fun t => t.2.2))
      = Except.ok [2, 3, 4] ∧
    ((heapOf intLt [1, 2, 3, 4, 5]).bind (fun h => extractMinInternal intLt 20 h)).bind
      (fun h => (extractMinInternalT intLt 20 h).bind
        (fun t => (getN t.2.1 4).map (fun n => n.parent))) = Except.ok (some 3) ∧
    ((heapOf intLt [1, 2, 3, 4, 5]).bind (fun h => extractMinInternal intLt 20 h)).bind
      (fun h => (extractMinInternalT intLt 20 h).bind
        (fun t => (getN t.2.1 2).map (fun n => n.parent))) = Except.ok none ∧
    ((heapOf intLt [1, 2, 3, 4, 5]).bind (fun h => extractMinInternal intLt 20 h)).bind
      (fun h => (extractMinInternalT intLt 20 h).bind
        (fun t => (getN t.2.1 3).map (fun n => n.parent))) = Except.ok none ∧
    ((heapOf intLt [1, 2, 3, 4, 5]).bind (fun h => extractMinInternal intLt 20 h)).bind
      (fun h => (extractMinInternalT intLt 20 h).map (fun t => t.1))
      = ((heapOf intLt [1, 2, 3, 4, 5]).bind (fun h => extractMinInternal intLt 20 h)).bind
        (fun h => extractMinInternal intLt 20 h) := by
  refine ⟨by decide, by decide, by decide, by decide, by decide⟩

/-- C5: extraction does not always run to completion.  Draining
`insert 1..5` dies on the out-of-bounds registry access after a
`std::size_t` degree underflow, and draining `insert 3,1,2,4` asks the
registry vector for about `2^64` slots (`std::bad_alloc`). -/
theorem C5_extraction_crashes :
    (heapOf intLt [1, 2, 3, 4, 5]).bind (fun h => extractK intLt 5 h)
      = Except.error Err.oob ∧
    (heapOf intLt [3, 1, 2, 4]).bind (fun h => extractK intLt 4 h)
      = Except.error Err.oom := by
  constructor
  · decide
  · decide

/-- C6: after two extractions from `insert 1..5` the forest is no
longer heap-ordered: node 2 holds key 3 and its parent is node 3, which
holds the larger key 4 (`compare(4,3)` fails and `4 ≠ 3`). -/
theorem C6_heap_order_violated :
    (((heapOf intLt [1, 2, 3, 4, 5]).bind (fun h => extractMinInternal intLt 20 h)).bind
      (fun h => extractMinInternal intLt 20 h)).bind
      (fun h => heapOrdered intLt intEq h) = Except.ok false ∧
    (((heapOf intLt [1, 2, 3, 4, 5]).bind (fun h => extractMinInternal intLt 20 h)).bind
      (fun h => extractMinInternal intLt 20 h)).bind
      (fun h => (getN h 2).map (fun n => (n.key, n.parent))) = Except.ok (3, some 3) ∧
    (((heapOf intLt [1, 2, 3, 4, 5]).bind (fun h => extractMinInternal intLt 20 h)).bind
      (fun h => extractMinInternal intLt 20 h)).bind
      (fun h => (getN h 3).map (fun n => n.key)) = Except.ok 4 := by
  refine ⟨by decide, by decide, by decide⟩

/-- C7 counterexample: after the consolidation triggered by the first
extraction from `insert 1,2,3,4`, the root chain holds two roots whose
`degree` fields are both `0` — the remaining roots do not have
pairwise-distinct degrees. -/
theorem C7_distinct_degrees_counterexample :
    ((heapOf intLt [1, 2, 3, 4]).bind (fun h => extractMinInternal intLt 20 h)).bind
      (fun h => (rootChain 20 h).bind
        (fun l => l.mapM (fun i => (getN h i).map (fun n => n.degree))))
      = Except.ok [0, 0] := by decide

/-- C7 amended: consolidation may leave roots sharing a degree (after
extracting from `1,2,3,4` both remaining roots report degree 0, one of
them wrongly, holding one child); the example part of the claim holds:
after the first extract-min following `5,3,8,1,9,2`, only 2 ≤ 4 roots
remain. -/
theorem C7_roots_after_consolidation_amended :
    ((heapOf intLt [5, 3, 8, 1, 9, 2]).bind (fun h => extractMinInternal intLt 20 h)).bind
      (fun h => (rootChain 20 h).map (fun l => l.length)) = Except.ok 2 ∧
    ((heapOf intLt [1, 2, 3, 4]).bind (fun h => extractMinInternal intLt 20 h)).bind
      (fun h => (rootChain 20 h).bind
        (fun l => l.mapM (fun i => (getN h i).map (fun n => n.degree))))
      = Except.ok [0, 0] := by
  constructor
  · decide
  · decide

/-- C8: `_insert` on a heap whose fresh id is really fresh, when it
succeeds, bumps `_size` by exactly one (as a `std::size_t`), makes the
new node the minimum when the heap was empty, and on a non-empty heap
repoints `_min` at the new node exactly when `compare(v, min->key)`
holds, leaving `_min` unchanged otherwise. -/
theorem C8_insert_min_and_size {α : Type} (cmp : α → α → Bool) (h : Heap α) (v : α)
    (h2 : Heap α)
    (hfresh : h.mem.find? (fun p => p.1 == h.next) = none)
    (hrun : insert cmp h v = Except.ok h2) :
    h2.size = incW64 h.size ∧
    (h.size + 1 < w64 → h2.size = h.size + 1) ∧
    (h.min = none → h2.min = some h.next) ∧
    (∀ m nd, h.min = some m → getN h m = Except.ok nd →
      ((h2.min = some h.next ↔ cmp v nd.key = true) ∧
       (cmp v nd.key = false → h2.min = h.min))) := by
  unfold insert at hrun
  cases hm : h.min with
  | none =>
    rw [hm] at hrun
    obtain ⟨hA, eA, hrun⟩ := bind_ok hrun
    obtain ⟨hB, eB, hrun⟩ := bind_ok hrun
    cases hrun
    have fA := updN_frame eA
    have fB := updN_frame eB
    refine ⟨?_, ?_, fun _ => rfl, ?_⟩
    · show incW64 hB.size = incW64 h.size
      rw [fB.2.1, fA.2.1]
      rfl
    · intro hlt
      show incW64 hB.size = h.size + 1
      rw [fB.2.1, fA.2.1]
      show (h.size + 1) % w64 = h.size + 1
      exact Nat.mod_eq_of_lt hlt
    · intro m nd hm2 _
      exact Option.noConfusion hm2
  | some m =>
    rw [hm] at hrun
    obtain ⟨hmid, e1, hrun⟩ := bind_ok hrun
    obtain ⟨mnd, e2, hrun⟩ := bind_ok hrun
    have frame := addToRootschain_hframe e1
    have hkeyAll : ∀ nd2, getN h m = Except.ok nd2 → mnd.key = nd2.key := by
      intro nd2 hnd
      have hmne : m ≠ h.next := by
        intro he
        rw [he] at hnd
        unfold getN at hnd
        rw [hfresh] at hnd
        exact Except.noConfusion hnd
      have hstep : getKey (extendH h v) m = getKey h m := by
        unfold getKey
        rw [getN_extend hfresh m, if_neg hmne]
      have h1 : getKey hmid m = getKey h m := (frame.2.2.2 m).trans hstep
      unfold getKey at h1
      rw [e2, hnd] at h1
      exact Except.ok.inj h1
    by_cases hc : cmp v mnd.key = true
    · rw [if_pos hc] at hrun
      cases hrun
      refine ⟨?_, ?_, ?_, ?_⟩
      · show incW64 hmid.size = incW64 h.size
        rw [frame.2.1]
        rfl
      · intro hlt
        show incW64 hmid.size = h.size + 1
        rw [frame.2.1]
        show (h.size + 1) % w64 = h.size + 1
        exact Nat.mod_eq_of_lt hlt
      · intro habs; exact Option.noConfusion habs
      · intro m2 nd hm2 hnd
        have hm2e : m = m2 := Option.some.inj hm2
        have hkey := hkeyAll nd (hm2e ▸ hnd)
        constructor
        · rw [hkey] at hc
          simp [hc]
        · intro hcf
          rw [hkey, hcf] at hc
          exact Bool.noConfusion hc
    · rw [if_neg hc] at hrun
      cases hrun
      refine ⟨?_, ?_, ?_, ?_⟩
      · show incW64 hmid.size = incW64 h.size
        rw [frame.2.1]
        rfl
      · intro hlt
        show incW64 hmid.size = h.size + 1
        rw [frame.2.1]
        show (h.size + 1) % w64 = h.size + 1
        exact Nat.mod_eq_of_lt hlt
      · intro habs; exact Option.noConfusion habs
      · intro m2 nd hm2 hnd
        have hm2e : m = m2 := Option.some.inj hm2
        have hmne : m ≠ h.next := by
          intro he
          rw [← hm2e, he] at hnd
          unfold getN at hnd
          rw [hfresh] at hnd
          exact Except.noConfusion hnd
        have hkey := hkeyAll nd (hm2e ▸ hnd)
        constructor
        · constructor
          · intro habs
            have := Option.some.inj habs
            exact absurd this hmne
          · intro habs
            rw [hkey] at hc
            exact absurd habs hc
        · intro _
          rfl

/-- C8 witness: inserting 3 into the empty heap satisfies the
hypotheses of `C8_insert_min_and_size`, and the conclusions evaluate:
size becomes 1 and the fresh node (id 0) becomes the minimum. -/
theorem C8_insert_min_and_size_witness :
    ((Heap.empty Int).mem.find? (fun p => p.1 == (Heap.empty Int).next) = none) ∧
    insert intLt (Heap.empty Int) 3
      = Except.ok (⟨[(0, ⟨3, none, none, some 0, some 0, 0, false⟩)], 1, some 0, 1⟩ : Heap Int) ∧
    (⟨[(0, ⟨3, none, none, some 0, some 0, 0, false⟩)], 1, some 0, 1⟩ : Heap Int).size = 0 + 1 ∧
    (⟨[(0, ⟨3, none, none, some 0, some 0, 0, false⟩)], 1, some 0, 1⟩ : Heap Int).min
      = some (Heap.empty Int).next :=
  ⟨by decide, by decide,
   (C8_insert_min_and_size intLt (Heap.empty Int) 3
      (⟨[(0, ⟨3, none, none, some 0, some 0, 0, false⟩)], 1, some 0, 1⟩ : Heap Int)
      (by decide) (by decide)).2.1 (by decide),
   (C8_insert_min_and_size intLt (Heap.empty Int) 3
      (⟨[(0, ⟨3, none, none, some 0, some 0, 0, false⟩)], 1, some 0, 1⟩ : Heap Int)
      (by decide) (by decide)).2.2.1 rfl⟩

/-- C9: after the single public operation sequence `insert 3,1,2,4;
extract_min()` the heap is `H3` with `_size = 3`, but the full
recursive traversal from `_min` (the one `_check_integrity_size`
counts with) never terminates at any fuel: there is no finite
"number of nodes reachable from min" for `_size` to equal. -/
theorem C9_size_traversal_diverges :
    ((heapOf intLt [3, 1, 2, 4]).bind (fun h => extractMinInternal intLt 20 h)
      = Except.ok H3) ∧
    H3.size = 3 ∧
    (∀ fuel, reachIds fuel H3 = Except.error Err.fuel) := by
  refine ⟨by decide, by decide, reachIdsH3⟩

/-- C10 counterexample: on the reachable heap `H3` (after
`insert 3,1,2,4; extract_min()`), a `contains` query for the absent
key 5 does not return `false` — at the canonical fuel the walk is
still running (it never terminates, see `C10_contains_amended`). -/
theorem C10_contains_counterexample :
    ((heapOf intLt [3, 1, 2, 4]).bind (fun h => extractMinInternal intLt 20 h)).bind
      (fun h => containsRun intEq (bigFuel h) h 5) = Except.error Err.fuel := by decide

/-- C10 amended: `contains` returns `false` on an empty heap and
leaves the heap unchanged, and on an intact heap answers membership
(true for the stored key 9, false for the absent 7, heap unchanged);
but on the corrupted reachable heap `H3` a query for an absent key
never terminates, whatever the fuel. -/
theorem C10_contains_amended :
    containsRun intEq 10 (Heap.empty Int) 7 = Except.ok (Heap.empty Int, false) ∧
    ((heapOf intLt [5, 3, 8, 1, 9, 2]).bind (fun h => containsRun intEq 100 h 9)
      = (heapOf intLt [5, 3, 8, 1, 9, 2]).map (fun h => (h, true))) ∧
    ((heapOf intLt [5, 3, 8, 1, 9, 2]).bind (fun h => containsRun intEq 100 h 7)
      = (heapOf intLt [5, 3, 8, 1, 9, 2]).map (fun h => (h, false))) ∧
    ((heapOf intLt [3, 1, 2, 4]).bind (fun h => extractMinInternal intLt 20 h)
      = Except.ok H3) ∧
    (∀ fuel, containsRun intEq fuel H3 5 = Except.error Err.fuel) := by
  refine ⟨by decide, by decide, by decide, by decide, containsRunH3⟩

end EdaLib
